import Mathlib

/-!
Shallow embedding of the contract-review React application
(`App.js`, `ContractUpload.js`, `ContractList.js`, `ReviewPanel.js`).

The root component owns three pieces of state: the list of uploaded
contract placeholders, the currently selected contract, and the review
result.  `handleUpload` appends `{ id: Date.now(), name: file.name }`
to the contracts list; `reviewContract` sets the selection and
overwrites the review result with a fixed constant; the upload widget's
`handleChange` takes the first file of the selection event and forwards
it only when it is present.  `ContractList` returns `null` for an empty
list and otherwise renders one row (name plus Review button) per
contract, in order.
-/

/-- Model of a browser `File` object as seen by the upload widget: only
the `name` field is ever read by the application; `content`, `mimeType`
and `size` are carried to express (in)dependence properties. -/
structure UFile where
  name : String
  content : String
  mimeType : String
  size : Nat
deriving Repr, DecidableEq

/-- Model of the file-selection change event: `e.target.files` is a
(possibly empty) list of files. -/
structure FileSelectionEvent where
  files : List UFile
deriving Repr, DecidableEq

/-- Contract placeholder created by `handleUpload`:
`{ id: Date.now(), name: file.name }`. -/
structure Contract where
  id : Nat
  name : String
deriving Repr, DecidableEq

/-- Review result record produced by `reviewContract`. -/
structure ReviewResult where
  missingClauses : List String
  risks : List String
  recommendations : List String
deriving Repr, DecidableEq

/-- The three `useState` pieces owned by the `App` component. -/
structure AppState where
  contracts : List Contract
  selectedContract : Option Contract
  reviewResult : Option ReviewResult
deriving Repr, DecidableEq

/-- Initial state at page load: `useState([])`, `useState(null)`,
`useState(null)`. -/
def initialState : AppState :=
  { contracts := [], selectedContract := none, reviewResult := none }

/-- Embedding of `handleUpload` from `App.js`:
`setContracts((prev) => [...prev, { id: Date.now(), name: file.name }])`.
Wall-clock time `Date.now()` is passed in as the parameter `now`. -/
def handleUpload (now : Nat) (file : UFile) (s : AppState) : AppState :=
  { s with contracts := s.contracts ++ [{ id := now, name := file.name }] }

/-- The fixed record assigned by `reviewContract` in `App.js`. -/
def fixedReviewResult : ReviewResult :=
  { missingClauses := ["Data Protection Clause", "Breach Notification Clause"],
    risks := ["Non-compliance with GDPR Article 33"],
    recommendations :=
      ["Add Data Protection Clause referencing GDPR requirements.",
       "Include Breach Notification Clause with 72-hour notification period."] }

/-- Embedding of `reviewContract` from `App.js`: sets the selected
contract and overwrites the review result with the fixed constant. -/
def reviewContract (contract : Contract) (s : AppState) : AppState :=
  { s with
    selectedContract := some contract,
    reviewResult := some fixedReviewResult }

/-- Embedding of `handleChange` from `ContractUpload.js`:
`const file = e.target.files[0]; if (file) { onUpload(file); }`;
the `onUpload` prop is `handleUpload` in `App.js`. -/
def handleChange (now : Nat) (e : FileSelectionEvent) (s : AppState) : AppState :=
  match e.files.head? with
  | some file => handleUpload now file s
  | none => s

/-- A user interaction: either a file-selection change event on the
upload widget, or a click of the Review button of row `i` of the
contract list (the button exists only for an actual row, hence the
operation is indexed by a position in the list). -/
inductive Op where
  | upload (now : Nat) (e : FileSelectionEvent)
  | review (i : Nat)
deriving Repr, DecidableEq

/-- One synchronous event-handler invocation.  A Review click passes
the row's own contract to `reviewContract`; an index with no row is a
no-op (no such button is rendered). -/
def step (op : Op) (s : AppState) : AppState :=
  match op with
  | .upload now e => handleChange now e s
  | .review i =>
    match s.contracts[i]? with
    | some c => reviewContract c s
    | none => s

/-- States reachable from page load through user interactions. -/
inductive Reachable : AppState → Prop where
  | init : Reachable initialState
  | next : ∀ {s} (op : Op), Reachable s → Reachable (step op s)

/-- One rendered row of `ContractList`: the contract's name in the text
cell, and the contract captured by the Review button's `onClick`. -/
structure ContractRow where
  displayName : String
  reviewTarget : Contract
deriving Repr, DecidableEq

/-- Rendering of one contract by `ContractList`'s `contracts.map`:
the text cell shows `contract.name`, the button calls
`onReview(contract)`. -/
def renderRow (c : Contract) : ContractRow :=
  { displayName := c.name, reviewTarget := c }

/-- Embedding of `ContractList` from `ContractList.js`:
`if (contracts.length === 0) return null;` else one row per contract
via `contracts.map`. -/
def renderContractList (contracts : List Contract) : Option (List ContractRow) :=
  if contracts.length = 0 then none
  else some (contracts.map renderRow)

/-- The guard of `App.js`'s conditional render
`{selectedContract && reviewResult && <ReviewPanel ... />}`. -/
def reviewPanelShown (s : AppState) : Bool :=
  s.selectedContract.isSome && s.reviewResult.isSome

/-- C1: for every contract and every state, `reviewContract` sets the
review result to the same fixed record — missing clauses exactly
['Data Protection Clause', 'Breach Notification Clause'], risks exactly
['Non-compliance with GDPR Article 33'], and recommendations exactly
the two fixed amendment strings — independent of which contract was
passed and of any file content. -/
theorem reviewContract_fixed_result (contract : Contract) (s : AppState) :
    (reviewContract contract s).reviewResult =
      some { missingClauses :=
               ["Data Protection Clause", "Breach Notification Clause"],
             risks := ["Non-compliance with GDPR Article 33"],
             recommendations :=
               ["Add Data Protection Clause referencing GDPR requirements.",
                "Include Breach Notification Clause with 72-hour notification period."] } :=
  rfl

/-- C2: for every contracts list and uploaded file, `handleUpload`
appends exactly one new placeholder entry, whose name equals the
file's name, to the end of the list: the new list is the old list with
one entry concatenated, its length is the old length plus one, and
every pre-existing entry is unchanged. -/
theorem handleUpload_appends_one (now : Nat) (file : UFile) (s : AppState) :
    (handleUpload now file s).contracts =
        s.contracts ++ [{ id := now, name := file.name }] ∧
    (handleUpload now file s).contracts.length = s.contracts.length + 1 ∧
    (∀ i, i < s.contracts.length →
        (handleUpload now file s).contracts[i]? = s.contracts[i]?) ∧
    ((handleUpload now file s).contracts.getLast?.map Contract.name
        = some file.name) := by
  refine ⟨rfl, by simp [handleUpload], ?_, ?_⟩
  · intro i h
    simp [handleUpload, List.getElem?_append_left h]
  · simp [handleUpload]

/-- Witness for `handleUpload_appends_one`: a state with one prior
contract and a concrete file named "x.pdf". -/
theorem handleUpload_appends_one_witness :
    0 < (AppState.mk [⟨1, "a.pdf"⟩] none none).contracts.length ∧
    (handleUpload 5 ⟨"x.pdf", "body", "application/pdf", 3⟩
        (AppState.mk [⟨1, "a.pdf"⟩] none none)).contracts[0]? =
      (AppState.mk [⟨1, "a.pdf"⟩] none none).contracts[0]? :=
  ⟨by decide,
   (handleUpload_appends_one 5 ⟨"x.pdf", "body", "application/pdf", 3⟩
      (AppState.mk [⟨1, "a.pdf"⟩] none none)).2.2.1 0 (by decide)⟩

/-- C6: `reviewContract` modifies only the selection and the review
result: the contracts list is exactly as before, and the review result
is overwritten with the fixed constant rather than accumulated — a
second (or n-th) review leaves exactly the state one review leaves. -/
theorem reviewContract_frame (c c' : Contract) (s : AppState) :
    (reviewContract c s).contracts = s.contracts ∧
    (reviewContract c s).reviewResult = some fixedReviewResult ∧
    reviewContract c (reviewContract c' s) = reviewContract c s :=
  ⟨rfl, rfl, rfl⟩

/-- C9: the placeholder appended by `handleUpload` has identifier
exactly the wall-clock time `now` passed at the moment of upload
(`Date.now()`), whatever the file is: the identifier is a function of
upload time only. -/
theorem handleUpload_id_is_now (now : Nat) (file : UFile) (s : AppState) :
    (handleUpload now file s).contracts.getLast?.map Contract.id = some now ∧
    (∀ file2 : UFile,
      (handleUpload now file s).contracts.getLast?.map Contract.id =
        (handleUpload now file2 s).contracts.getLast?.map Contract.id) := by
  constructor
  · simp [handleUpload]
  · intro file2
    simp [handleUpload]

/-- C5: when the file-selection event carries no file, the upload
handler performs no action: nothing is forwarded to the upload
callback (the extracted first file is `none`) and the whole state — in
particular the contracts list — is unchanged. -/
theorem handleChange_empty_noop (now : Nat) (e : FileSelectionEvent)
    (s : AppState) (h : e.files = []) :
    e.files.head? = none ∧
    handleChange now e s = s ∧
    (handleChange now e s).contracts = s.contracts := by
  obtain ⟨fs⟩ := e
  simp only at h
  subst h
  exact ⟨rfl, rfl, rfl⟩

/-- Witness for `handleChange_empty_noop`: an empty selection event on
the initial state. -/
theorem handleChange_empty_noop_witness :
    (FileSelectionEvent.mk []).files.head? = none ∧
    handleChange 7 (FileSelectionEvent.mk []) initialState = initialState ∧
    (handleChange 7 (FileSelectionEvent.mk []) initialState).contracts =
      initialState.contracts :=
  handleChange_empty_noop 7 (FileSelectionEvent.mk []) initialState rfl

/-- C7: the upload control forwards only the first selected file, and
the resulting state depends only on that file's name: two selection
events whose first files share a name — whatever their contents,
types, sizes, or additional files — produce identical resulting
state. -/
theorem handleChange_first_name_only (now : Nat)
    (e1 e2 : FileSelectionEvent) (s : AppState) (f1 f2 : UFile)
    (h1 : e1.files.head? = some f1) (h2 : e2.files.head? = some f2)
    (hname : f1.name = f2.name) :
    handleChange now e1 s = handleUpload now f1 s ∧
    handleChange now e1 s = handleChange now e2 s := by
  constructor
  · simp [handleChange, h1]
  · simp [handleChange, h1, h2, handleUpload, hname]

/-- Witness for `handleChange_first_name_only`: two events whose first
files are both named "x.pdf" but differ in content, type, size, and in
the presence of an extra file. -/
theorem handleChange_first_name_only_witness :
    handleChange 3 (FileSelectionEvent.mk
        [⟨"x.pdf", "AAA", "application/pdf", 10⟩]) initialState =
      handleChange 3 (FileSelectionEvent.mk
        [⟨"x.pdf", "BBB", "text/plain", 99⟩, ⟨"y.doc", "", "", 0⟩])
        initialState :=
  (handleChange_first_name_only 3
    (FileSelectionEvent.mk [⟨"x.pdf", "AAA", "application/pdf", 10⟩])
    (FileSelectionEvent.mk
      [⟨"x.pdf", "BBB", "text/plain", 99⟩, ⟨"y.doc", "", "", 0⟩])
    initialState
    ⟨"x.pdf", "AAA", "application/pdf", 10⟩
    ⟨"x.pdf", "BBB", "text/plain", 99⟩ rfl rfl rfl).2

/-- C8: the contract-list component renders nothing (`null`) when the
contracts list is empty, and otherwise renders exactly one row per
contract, in list order, each row showing the contract's name and a
button whose click selects that very contract. -/
theorem renderContractList_spec (contracts : List Contract) :
    (contracts = [] → renderContractList contracts = none) ∧
    (contracts ≠ [] →
      renderContractList contracts = some (contracts.map renderRow) ∧
      (contracts.map renderRow).length = contracts.length ∧
      (∀ i, i < contracts.length →
        ((contracts.map renderRow)[i]?).map ContractRow.displayName =
            (contracts[i]?).map Contract.name ∧
        ((contracts.map renderRow)[i]?).map ContractRow.reviewTarget =
            contracts[i]?)) := by
  constructor
  · intro h
    subst h
    rfl
  · intro h
    refine ⟨?_, by simp, ?_⟩
    · simp [renderContractList, List.length_eq_zero, h]
    · intro i hi
      constructor <;>
        · cases hc : contracts[i]? <;> simp [hc, renderRow]

/-- Witness for `renderContractList_spec`: the empty list renders
nothing; a one-element list renders one row with the contract's name
and the contract itself as the button's target. -/
theorem renderContractList_spec_witness :
    renderContractList [] = none ∧
    renderContractList [⟨1, "a.pdf"⟩] =
      some [⟨"a.pdf", ⟨1, "a.pdf"⟩⟩] := by
  constructor
  · exact (renderContractList_spec []).1 rfl
  · exact ((renderContractList_spec [⟨1, "a.pdf"⟩]).2 (by simp)).1

/-- Case analysis of one `step`: it is either an inert event (empty
file selection or a Review index with no row), an upload append
leaving selection and result alone, or a review of an actual list
member leaving the contracts alone. -/
theorem step_cases (op : Op) (s : AppState) :
    step op s = s ∨
    (∃ now f, step op s =
        { s with contracts := s.contracts ++ [⟨now, f⟩] }) ∨
    (∃ c, s.contracts[(match op with | .review i => i | _ => 0)]? = some c ∧
        step op s =
          { s with
            selectedContract := some c,
            reviewResult := some fixedReviewResult }) := by
  cases op with
  | upload now e =>
    cases he : e.files.head? with
    | none =>
      left
      simp [step, handleChange, he]
    | some f =>
      right; left
      exact ⟨now, f.name, by simp [step, handleChange, he, handleUpload]⟩
  | review i =>
    cases hc : s.contracts[i]? with
    | none =>
      left
      simp [step, hc]
    | some c =>
      right; right
      exact ⟨c, rfl, by simp [step, hc, reviewContract]⟩

/-- C3: the contracts list is append-only: for every reachable state
and every operation, the prior list is an initial segment of the
resulting list (taking the old length back out of the new list gives
the old list unchanged), so no placeholder entry is ever mutated,
removed or reordered. -/
theorem contracts_append_only (s : AppState) (_hs : Reachable s) (op : Op) :
    (step op s).contracts.take s.contracts.length = s.contracts := by
  rcases step_cases op s with h | ⟨now, f, h⟩ | ⟨c, hc, h⟩ <;>
    simp [h, List.take_left]

/-- Witness for `contracts_append_only`: a concrete upload step out of
the initial state. -/
theorem contracts_append_only_witness :
    (step (Op.upload 5 (FileSelectionEvent.mk
        [⟨"x.pdf", "body", "application/pdf", 3⟩])) initialState).contracts.take
      initialState.contracts.length = initialState.contracts :=
  contracts_append_only initialState Reachable.init
    (Op.upload 5 (FileSelectionEvent.mk
      [⟨"x.pdf", "body", "application/pdf", 3⟩]))

/-- Every reachable state's selection, when present, is a member of
the contracts list. -/
theorem mem_of_selected : ∀ {s : AppState}, Reachable s →
    ∀ c, s.selectedContract = some c → c ∈ s.contracts := by
  intro s hs
  induction hs with
  | init =>
    intro c h
    simp [initialState] at h
  | @next s' op hr ih =>
    intro c h
    rcases step_cases op s' with heq | ⟨now, f, heq⟩ | ⟨c0, hc0, heq⟩
    · rw [heq] at h ⊢
      exact ih c h
    · rw [heq] at h ⊢
      exact List.mem_append_left _ (ih c h)
    · rw [heq] at h ⊢
      simp only at h
      injection h with h
      subst h
      rw [List.getElem?_eq_some] at hc0
      obtain ⟨hi, rfl⟩ := hc0
      exact List.getElem_mem hi

/-- C4: in every reachable state a non-null selection is a member of
the contracts list (every member having been appended by an earlier
upload, the only operation that extends the list), and each review
action replaces the selection with the very contract it was invoked
on. -/
theorem selected_is_member (s : AppState) (hs : Reachable s) :
    (∀ c, s.selectedContract = some c → c ∈ s.contracts) ∧
    (∀ i c, s.contracts[i]? = some c →
        (step (Op.review i) s).selectedContract = some c) := by
  constructor
  · exact mem_of_selected hs
  · intro i c hc
    simp [step, hc, reviewContract]

/-- Witness for `selected_is_member`: after uploading "x.pdf" at time
5 and reviewing row 0, the selected contract `⟨5, "x.pdf"⟩` is in the
contracts list. -/
theorem selected_is_member_witness :
    (⟨5, "x.pdf"⟩ : Contract) ∈
      (step (Op.review 0)
        (step (Op.upload 5 (FileSelectionEvent.mk
          [⟨"x.pdf", "body", "application/pdf", 3⟩])) initialState)).contracts :=
  (selected_is_member _
      (Reachable.next _ (Reachable.next _ Reachable.init))).1
    ⟨5, "x.pdf"⟩ rfl

/-- Both null or both non-null: the selection and the review result of
a reachable state are set only together, by the review operation. -/
theorem selected_isSome_iff_result_isSome : ∀ {s : AppState},
    Reachable s → (s.selectedContract.isSome ↔ s.reviewResult.isSome) := by
  intro s hs
  induction hs with
  | init => simp [initialState]
  | @next s' op hr ih =>
    rcases step_cases op s' with heq | ⟨now, f, heq⟩ | ⟨c0, hc0, heq⟩ <;>
      simp [heq, ih]

/-- C10: in every reachable state the selected contract is non-null
exactly when the review result is non-null — both start null at page
load and are only ever set together by the review operation — and the
review panel, guarded on both, is therefore shown exactly when both
are set. -/
theorem panel_iff_reviewed (s : AppState) (hs : Reachable s) :
    (s.selectedContract.isSome ↔ s.reviewResult.isSome) ∧
    initialState.selectedContract = none ∧
    initialState.reviewResult = none ∧
    (reviewPanelShown s = true ↔ s.selectedContract.isSome = true) := by
  have h := selected_isSome_iff_result_isSome hs
  refine ⟨h, rfl, rfl, ?_⟩
  simp only [reviewPanelShown, Bool.and_eq_true]
  constructor
  · intro hb
    exact hb.1
  · intro hb
    exact ⟨hb, h.mp hb⟩

/-- Witness for `panel_iff_reviewed`: in the state after one upload
and one review, the panel guard and the selection agree (both set). -/
theorem panel_iff_reviewed_witness :
    reviewPanelShown
        (step (Op.review 0)
          (step (Op.upload 5 (FileSelectionEvent.mk
            [⟨"x.pdf", "body", "application/pdf", 3⟩])) initialState)) = true :=
  (panel_iff_reviewed _
      (Reachable.next _ (Reachable.next _ Reachable.init))).2.2.2.mpr rfl
